import Mathlib

/-!
Verification of the Echo-State-Networks hyperparameter-optimization script
(`optimize_parameters.py`) against its natural-language specification.

The development shallowly embeds the parts of the script that the claims
are about:

* `ridge_regression` / `ridge_solve` embed `EchoStateOptimizer.ridge_regression`
  (source lines 91-94), with exact rationals standing for float32 values.
* `mse` embeds the loss `tf.reduce_mean(tf.square(outputs - targets))`
  (source line 145) on flattened tensors.
* `mult_sines`, `rnn_input`, `rnn_target` embed the dataset construction
  (source lines 52-60 and 116-127); the transcendental `np.sin` is passed in
  as an explicit function parameter so the definitions stay executable.
* `stepModel` and `runLoop` embed one iteration of the training loop
  (source lines 141-177) and the fixed-length epoch loop; the differentiable
  forward pass through the external `EchoStateRNNCell` and the tape gradient
  are abstracted as function parameters `lossOf`/`gradsOf`, and the Adam
  update follows the TensorFlow Adam update rule with the learning rate of the script, namely 0.02 and the TensorFlow default beta/epsilon constants,
  over the real numbers.
-/

open Matrix

/-! ## Ridge regression (source lines 91-94) -/

/-- Embedding of `tf.linalg.inv`: TensorFlow raises `InvalidArgumentError`
("Input is not invertible.") when the input matrix is singular, modelled
here as `Except.error`; on an invertible input it returns the inverse,
written via determinant and adjugate so the definition is executable. -/
def tf_linalg_inv {n : ℕ} (A : Matrix (Fin n) (Fin n) ℚ) :
    Except String (Matrix (Fin n) (Fin n) ℚ) :=
  if A.det = 0 then Except.error "Input is not invertible."
  else Except.ok (A.det⁻¹ • A.adjugate)

/-- `EchoStateOptimizer.ridge_regression(X, Y)`:
`tf.matmul(tf.linalg.inv(tf.matmul(tf.transpose(X), X) + lmb*tf.eye(units)), tf.matmul(tf.transpose(X), Y))`,
source lines 91-94.  `lmb` is the fixed regularization constant of the model. -/
def ridge_regression {T U K : ℕ} (lmb : ℚ) (X : Matrix (Fin T) (Fin U) ℚ)
    (Y : Matrix (Fin T) (Fin K) ℚ) :
    Except String (Matrix (Fin U) (Fin K) ℚ) :=
  (tf_linalg_inv (Xᵀ * X + lmb • (1 : Matrix (Fin U) (Fin U) ℚ))).map
    (fun Minv => Minv * (Xᵀ * Y))

/-- The value `ridge_regression` returns on the non-error path:
`W = (XᵀX + λI)⁻¹ (XᵀY)`, with the inverse written via determinant and
adjugate so the definition is executable. -/
def ridge_solve {T U K : ℕ} (lmb : ℚ) (X : Matrix (Fin T) (Fin U) ℚ)
    (Y : Matrix (Fin T) (Fin K) ℚ) : Matrix (Fin U) (Fin K) ℚ :=
  ((Xᵀ * X + lmb • (1 : Matrix (Fin U) (Fin U) ℚ)).det⁻¹ •
    (Xᵀ * X + lmb • (1 : Matrix (Fin U) (Fin U) ℚ)).adjugate) * (Xᵀ * Y)

/-- Frobenius inner product of two matrices, used to state the
regularization-shrinkage property of `ridge_solve`. -/
def frobInner {T K : ℕ} (A B : Matrix (Fin T) (Fin K) ℚ) : ℚ :=
  ∑ i, ∑ j, A i j * B i j

/-- Squared Frobenius norm. -/
def frobNormSq {T K : ℕ} (A : Matrix (Fin T) (Fin K) ℚ) : ℚ :=
  frobInner A A

/-- The ridge objective `‖XW - Y‖² + λ‖W‖²` that the closed-form solution
minimizes. -/
def ridgeObjective {T U K : ℕ} (lmb : ℚ) (X : Matrix (Fin T) (Fin U) ℚ)
    (Y : Matrix (Fin T) (Fin K) ℚ) (W : Matrix (Fin U) (Fin K) ℚ) : ℚ :=
  frobNormSq (X * W - Y) + lmb * frobNormSq W

/-! ## Loss (source line 145) -/

/-- `tf.reduce_mean(tf.square(outputs - targets))` on the flattened
elements of two equally shaped tensors. -/
def mse (a b : List ℚ) : ℚ :=
  ((List.zipWith (fun x y => (x - y) ^ 2) a b).sum) / (a.length : ℚ)

/-! ## Dataset construction (source lines 52-60 and 116-127) -/

/-- `mult_sines(stime)` (source lines 52-60):
`res = sin(t) + sin(0.51 t) + sin(0.22 t) + sin(0.1002 t) + sin(0.05343 t)`
for `t = 0..stime-1`, then `res -= res.min()` and `res /= res.max()`.
The float `np.sin` is abstracted as the function parameter `sinf`. -/
def mult_sines (sinf : ℚ → ℚ) (stime : ℕ) : List ℚ :=
  let res := (List.range stime).map (fun t : ℕ =>
    sinf t + sinf (0.51 * t) + sinf (0.22 * t) +
      sinf (0.1002 * t) + sinf (0.05343 * t))
  let mn := res.min?.getD 0
  let shifted := res.map (fun x => x - mn)
  let mx := shifted.max?.getD 0
  shifted.map (fun x => x / mx)

/-- The input sequence `wave[5:]` of source line 118/124, where
`wave = mult_sines(stime+5)` (source line 117). -/
def rnn_input (sinf : ℚ → ℚ) (stime : ℕ) : List ℚ :=
  (mult_sines sinf (stime + 5)).drop 5

/-- The target sequence `wave[:-5]` of source line 121/126. -/
def rnn_target (sinf : ℚ → ℚ) (stime : ℕ) : List ℚ :=
  (mult_sines sinf (stime + 5)).take stime

/-! ## The training loop (source lines 131-177)

One epoch of the loop body, over the real numbers.  The differentiable
forward pass (external `EchoStateRNNCell` recurrence, ridge readout,
mean-squared-error loss) and the tape gradient are abstracted as function
parameters `lossOf` and `gradsOf`: both depend on the current values of the
four trainable hyperparameters and on the fixed regularization constant
`lmb`; the dataset and the seed-dependent random reservoir weight
matrices are baked into these functions, since the loop neither creates nor
modifies them. -/

/-- The four trainable hyperparameters of the `EchoStateRNNCell`
(`optimize_vars=["rho", "decay", "alpha", "sw"]`, source lines 70-73). -/
structure HP where
  rho : ℝ
  alpha : ℝ
  decay : ℝ
  sw : ℝ

/-- The state mutated by one epoch of the training loop: the four
trainable scalars, the Adam first/second moment slots for each of them,
the non-trainable regularization constant `lmb` (source line 79), and the
Adam iteration counter. -/
structure OptState where
  hp : HP
  m : HP
  v : HP
  lmb : ℝ
  t : ℕ

/-- One per-epoch record of the `data` dictionary
(source lines 131 and 160-171): loss and the four hyperparameter values
as read after `apply_gradients`. -/
structure Record where
  loss : ℝ
  alpha : ℝ
  decay : ℝ
  rho : ℝ
  sw : ℝ

/-- `tf.clip_by_value(x, lo, hi)`. -/
noncomputable def clip_by_value (x lo hi : ℝ) : ℝ := min (max x lo) hi

/-- The four clamping assignments of source lines 148-155. -/
noncomputable def clampHyper (h : HP) : HP :=
  { rho := clip_by_value h.rho 0.5 50.0
    alpha := clip_by_value h.alpha 0.05 0.95
    decay := clip_by_value h.decay 0.0001 0.25
    sw := clip_by_value h.sw 0.5 50.0 }

/-- Membership of the four hyperparameters in their declared closed
intervals (the section-3 table of the specification). -/
def hpInRange (h : HP) : Prop :=
  (0.5 ≤ h.rho ∧ h.rho ≤ 50.0) ∧ (0.05 ≤ h.alpha ∧ h.alpha ≤ 0.95) ∧
    (0.0001 ≤ h.decay ∧ h.decay ≤ 0.25) ∧ (0.5 ≤ h.sw ∧ h.sw ≤ 50.0)

/-- Learning rate passed to `tf.optimizers.Adam` (source line 136). -/
noncomputable def learning_rate : ℝ := 0.02

/-- TensorFlow Adam default `beta_1`. -/
noncomputable def beta_1 : ℝ := 0.9

/-- TensorFlow Adam default `beta_2`. -/
noncomputable def beta_2 : ℝ := 0.999

/-- TensorFlow Adam default `epsilon`. -/
noncomputable def adam_epsilon : ℝ := 1e-7

/-- Adam first-moment update `m' = β₁ m + (1-β₁) g`. -/
noncomputable def adam_m (m g : ℝ) : ℝ := beta_1 * m + (1 - beta_1) * g

/-- Adam second-moment update `v' = β₂ v + (1-β₂) g²`. -/
noncomputable def adam_v (v g : ℝ) : ℝ := beta_2 * v + (1 - beta_2) * g ^ 2

/-- Adam bias-corrected step size `lr·√(1-β₂ᵗ)/(1-β₁ᵗ)`. -/
noncomputable def adam_lr (t : ℕ) : ℝ :=
  learning_rate * Real.sqrt (1 - beta_2 ^ t) / (1 - beta_1 ^ t)

/-- Adam parameter update `θ' = θ - lrₜ · m'/(√v' + ε̂)` (the TensorFlow
implementation of `apply_gradients` for Adam). -/
noncomputable def adam_theta (t : ℕ) (θ m v g : ℝ) : ℝ :=
  θ - adam_lr t * (adam_m m g / (Real.sqrt (adam_v v g) + adam_epsilon))

/-- Componentwise Adam parameter update of the four hyperparameters. -/
noncomputable def adamHP (t : ℕ) (h m v g : HP) : HP :=
  { rho := adam_theta t h.rho m.rho v.rho g.rho
    alpha := adam_theta t h.alpha m.alpha v.alpha g.alpha
    decay := adam_theta t h.decay m.decay v.decay g.decay
    sw := adam_theta t h.sw m.sw v.sw g.sw }

/-- Componentwise Adam first-moment update. -/
noncomputable def adamM (m g : HP) : HP :=
  { rho := adam_m m.rho g.rho
    alpha := adam_m m.alpha g.alpha
    decay := adam_m m.decay g.decay
    sw := adam_m m.sw g.sw }

/-- Componentwise Adam second-moment update. -/
noncomputable def adamV (v g : HP) : HP :=
  { rho := adam_v v.rho g.rho
    alpha := adam_v v.alpha g.alpha
    decay := adam_v v.decay g.decay
    sw := adam_v v.sw g.sw }

/-- One iteration of the training loop (source lines 141-177), in the
order of operations of the source:
1. forward pass and loss under the gradient tape at the *current*
   (unclamped) hyperparameter values (lines 142-145);
2. `grads = tape.gradient(...)` at those same values (line 146);
3. the four `clip_by_value` assignments (lines 148-155);
4. `optimizer.apply_gradients` — the Adam update applied on top of the
   clamped values (line 157);
5. the per-epoch record reads the hyperparameters *after* the update
   (lines 159-171). -/
noncomputable def stepModel (gradsOf : HP → ℝ → HP) (lossOf : HP → ℝ → ℝ)
    (s : OptState) : OptState × Record :=
  let loss := lossOf s.hp s.lmb
  let g := gradsOf s.hp s.lmb
  let hc := clampHyper s.hp
  let h' := adamHP (s.t + 1) hc s.m s.v g
  (⟨h', adamM s.m g, adamV s.v g, s.lmb, s.t + 1⟩,
    ⟨loss, h'.alpha, h'.decay, h'.rho, h'.sw⟩)

/-- A step as worded by the specification (for comparison with
`stepModel`): `apply_gradients` on the unclamped values first, the
projection by clamping strictly after the update. -/
noncomputable def specOrderStep (gradsOf : HP → ℝ → HP) (lossOf : HP → ℝ → ℝ)
    (s : OptState) : OptState × Record :=
  let loss := lossOf s.hp s.lmb
  let g := gradsOf s.hp s.lmb
  let h' := adamHP (s.t + 1) s.hp s.m s.v g
  let hc := clampHyper h'
  (⟨hc, adamM s.m g, adamV s.v g, s.lmb, s.t + 1⟩,
    ⟨loss, hc.alpha, hc.decay, hc.rho, hc.sw⟩)

/-- The fixed-length epoch loop `for epoch in range(epochs)`
(source line 141): runs `n` iterations of `step` from state `s`, returning
the final state and the list of per-epoch records in epoch order. -/
def runLoop (step : OptState → OptState × Record) :
    ℕ → OptState → OptState × List Record
  | 0, s => (s, [])
  | n + 1, s =>
    let sr := step s
    let rest := runLoop step n sr.1
    (rest.1, sr.2 :: rest.2)

/-- The state reached after `e` iterations of `step` from `s`. -/
def stateAfter (step : OptState → OptState × Record) :
    ℕ → OptState → OptState
  | 0, s => s
  | e + 1, s => stateAfter step e (step s).1

/-- The whole `optimize()` training phase as a function of the abstracted
forward pass/gradient (which carry the dataset and the seed-dependent
reservoir weights), the epoch count, and the initial optimizer state. -/
noncomputable def optimizeModel (gradsOf : HP → ℝ → HP) (lossOf : HP → ℝ → ℝ)
    (epochs : ℕ) (s : OptState) : OptState × List Record :=
  runLoop (stepModel gradsOf lossOf) epochs s

/-- A concrete gradient oracle used to evaluate the step model on explicit
inputs: gradient `-1` on `alpha`, `0` on the other three scalars. -/
def cexGrads : HP → ℝ → HP := fun _ _ => ⟨0, -1, 0, 0⟩

/-- A concrete loss oracle used to evaluate the step model on explicit
inputs. -/
def cexLoss : HP → ℝ → ℝ := fun _ _ => 0

/-- A concrete optimizer state: all four hyperparameters inside their
intervals (`alpha` at its upper bound 0.95), zero Adam moments, the
default regularization constant `lmb = 0.02`, iteration counter 0. -/
noncomputable def cexState : OptState :=
  ⟨⟨1, 0.95, 0.01, 1⟩, ⟨0, 0, 0, 0⟩, ⟨0, 0, 0, 0⟩, 0.02, 0⟩

/-! ## Ridge-regression lemmas -/

theorem qdot_self_nonneg {n : ℕ} (v : Fin n → ℚ) : 0 ≤ v ⬝ᵥ v :=
  Finset.sum_nonneg fun i _ => mul_self_nonneg (v i)

theorem qdot_self_pos {n : ℕ} {v : Fin n → ℚ} (hv : v ≠ 0) : 0 < v ⬝ᵥ v := by
  obtain ⟨i, hi⟩ := Function.ne_iff.mp hv
  exact Finset.sum_pos' (fun j _ => mul_self_nonneg (v j))
    ⟨i, Finset.mem_univ i, mul_self_pos.mpr hi⟩

theorem ridge_quadratic_form {T U : ℕ} (X : Matrix (Fin T) (Fin U) ℚ)
    (lmb : ℚ) (v : Fin U → ℚ) :
    v ⬝ᵥ ((Xᵀ * X + lmb • (1 : Matrix (Fin U) (Fin U) ℚ)) *ᵥ v) =
      (X *ᵥ v) ⬝ᵥ (X *ᵥ v) + lmb * (v ⬝ᵥ v) := by
  rw [Matrix.add_mulVec, Matrix.dotProduct_add, Matrix.smul_mulVec_assoc,
    Matrix.one_mulVec, Matrix.dotProduct_smul, smul_eq_mul,
    ← Matrix.mulVec_mulVec, Matrix.dotProduct_mulVec, Matrix.vecMul_transpose]

theorem ridge_det_ne_zero {T U : ℕ} (X : Matrix (Fin T) (Fin U) ℚ)
    {lmb : ℚ} (hl : 0 < lmb) :
    (Xᵀ * X + lmb • (1 : Matrix (Fin U) (Fin U) ℚ)).det ≠ 0 := by
  intro hdet
  obtain ⟨v, hv0, hker⟩ := Matrix.exists_mulVec_eq_zero_iff.mpr hdet
  have h1 := ridge_quadratic_form X lmb v
  rw [hker, Matrix.dotProduct_zero] at h1
  have h2 : 0 < lmb * (v ⬝ᵥ v) := mul_pos hl (qdot_self_pos hv0)
  have h3 : 0 ≤ (X *ᵥ v) ⬝ᵥ (X *ᵥ v) := qdot_self_nonneg _
  linarith

theorem ridge_solve_normal {T U K : ℕ} (lmb : ℚ) (X : Matrix (Fin T) (Fin U) ℚ)
    (Y : Matrix (Fin T) (Fin K) ℚ) (hl : 0 < lmb) :
    (Xᵀ * X + lmb • (1 : Matrix (Fin U) (Fin U) ℚ)) * ridge_solve lmb X Y =
      Xᵀ * Y := by
  have hdet := ridge_det_ne_zero X hl
  unfold ridge_solve
  rw [← Matrix.mul_assoc, Matrix.mul_smul, Matrix.mul_adjugate, smul_smul,
    inv_mul_cancel₀ hdet, one_smul, Matrix.one_mul]

/-- C3: for every state matrix X, target matrix Y and scalar λ > 0 (over the
exact rationals λ > 0 already makes XᵀX + λI invertible), the matrix
returned by `ridge_regression` is `(XᵀX + λI)⁻¹ XᵀY` and satisfies the
normal equation `(XᵀX + λI)·W = XᵀY`. -/
theorem ridge_regression_normal_equation {T U K : ℕ}
    (X : Matrix (Fin T) (Fin U) ℚ) (Y : Matrix (Fin T) (Fin K) ℚ)
    {lmb : ℚ} (hl : 0 < lmb) :
    (Xᵀ * X + lmb • (1 : Matrix (Fin U) (Fin U) ℚ)) * ridge_solve lmb X Y =
        Xᵀ * Y ∧
      ridge_solve lmb X Y =
        (Xᵀ * X + lmb • (1 : Matrix (Fin U) (Fin U) ℚ))⁻¹ * (Xᵀ * Y) ∧
      ridge_regression lmb X Y = Except.ok (ridge_solve lmb X Y) := by
  refine ⟨ridge_solve_normal lmb X Y hl, ?_, ?_⟩
  · rw [Matrix.inv_def, Ring.inverse_eq_inv]; rfl
  · unfold ridge_regression tf_linalg_inv
    rw [if_neg (ridge_det_ne_zero X hl)]
    rfl

/-- Witness for C3 at X = [[2]], Y = [[3]], λ = 1. -/
theorem ridge_regression_normal_equation_witness :
    (0 : ℚ) < 1 ∧
      ((!![(2 : ℚ)])ᵀ * !![(2 : ℚ)] + (1 : ℚ) • (1 : Matrix (Fin 1) (Fin 1) ℚ)) *
          ridge_solve 1 !![(2 : ℚ)] !![(3 : ℚ)] = (!![(2 : ℚ)])ᵀ * !![(3 : ℚ)] :=
  ⟨by norm_num,
    (ridge_regression_normal_equation !![(2 : ℚ)] !![(3 : ℚ)] (by norm_num)).1⟩

/-- C4: when λ = 0 and the columns of X are linearly dependent (a nonzero
vector v with Xv = 0), the matrix XᵀX + λI is singular and
`ridge_regression` reports the inversion failure (`tf.linalg.inv` raises
`InvalidArgumentError`, modelled as `Except.error`) instead of returning a
weight matrix. -/
theorem ridge_regression_singular_error {T U K : ℕ}
    (X : Matrix (Fin T) (Fin U) ℚ) (Y : Matrix (Fin T) (Fin K) ℚ)
    (v : Fin U → ℚ) (hv : v ≠ 0) (hXv : X *ᵥ v = 0) :
    ridge_regression 0 X Y = Except.error "Input is not invertible." := by
  have hker : (Xᵀ * X + (0 : ℚ) • (1 : Matrix (Fin U) (Fin U) ℚ)) *ᵥ v = 0 := by
    rw [zero_smul, add_zero, ← Matrix.mulVec_mulVec, hXv, Matrix.mulVec_zero]
  have hdet : (Xᵀ * X + (0 : ℚ) • (1 : Matrix (Fin U) (Fin U) ℚ)).det = 0 :=
    Matrix.exists_mulVec_eq_zero_iff.mp ⟨v, hv, hker⟩
  unfold ridge_regression tf_linalg_inv
  rw [if_pos hdet]
  rfl

/-- Witness for C4: X = [[1,1],[1,1]] has linearly dependent columns,
v = (1,-1) is a nonzero kernel vector, and the solver errors out. -/
theorem ridge_regression_singular_error_witness :
    (![(1 : ℚ), -1] ≠ (0 : Fin 2 → ℚ)) ∧
      ridge_regression 0 !![(1 : ℚ), 1; 1, 1] !![(1 : ℚ); 1] =
        Except.error "Input is not invertible." :=
  ⟨by decide,
    ridge_regression_singular_error !![(1 : ℚ), 1; 1, 1] !![(1 : ℚ); 1]
      ![(1 : ℚ), -1] (by decide)
      (by
        funext i
        fin_cases i <;>
          simp [Matrix.mulVec, Matrix.dotProduct, Fin.sum_univ_two])⟩

/-! ## Loss lemmas -/

theorem zipSq_sum_nonneg :
    ∀ (a b : List ℚ), 0 ≤ (List.zipWith (fun x y => (x - y) ^ 2) a b).sum
  | [], _ => by simp
  | _ :: _, [] => by simp
  | x :: a, y :: b => by
    have ih := zipSq_sum_nonneg a b
    have hx : (0 : ℚ) ≤ (x - y) ^ 2 := sq_nonneg _
    simp only [List.zipWith_cons_cons, List.sum_cons]
    exact add_nonneg hx ih

theorem zipSq_sum_eq_zero_iff :
    ∀ (a b : List ℚ), a.length = b.length →
      ((List.zipWith (fun x y => (x - y) ^ 2) a b).sum = 0 ↔ a = b)
  | [], [], _ => by simp
  | [], _ :: _, h => by simp at h
  | _ :: _, [], h => by simp at h
  | x :: a, y :: b, h => by
    have hlen : a.length = b.length := by simpa using h
    have ih := zipSq_sum_eq_zero_iff a b hlen
    have hrest := zipSq_sum_nonneg a b
    have hx : (0 : ℚ) ≤ (x - y) ^ 2 := sq_nonneg _
    simp only [List.zipWith_cons_cons, List.sum_cons, List.cons.injEq]
    constructor
    · intro h0
      have hx0 : (x - y) ^ 2 = 0 := le_antisymm (by linarith) hx
      have hxy : x = y := by
        have := sq_eq_zero_iff.mp hx0
        linarith [sub_eq_zero.mp this]
      have hsum0 : (List.zipWith (fun x y => (x - y) ^ 2) a b).sum = 0 := by
        linarith
      exact ⟨hxy, ih.mp hsum0⟩
    · rintro ⟨rfl, rfl⟩
      have hs := ih.mpr rfl
      simp [hs]

/-- C5: for equally shaped prediction and target tensors the loss
`tf.reduce_mean(tf.square(outputs - targets))` (modelled by `mse` on the
flattened elements) is non-negative, and it is zero exactly when the
predictions equal the targets element-wise. -/
theorem mse_nonneg_and_zero_iff (a b : List ℚ) (hlen : a.length = b.length) :
    0 ≤ mse a b ∧ (mse a b = 0 ↔ a = b) := by
  constructor
  · exact div_nonneg (zipSq_sum_nonneg a b) (Nat.cast_nonneg a.length)
  · unfold mse
    rcases Nat.eq_zero_or_pos a.length with hz | hpos
    · have ha : a = [] := List.length_eq_zero.mp hz
      have hb : b = [] := List.length_eq_zero.mp (hlen ▸ hz)
      subst ha; subst hb; simp
    · have hne : (a.length : ℚ) ≠ 0 := by positivity
      rw [div_eq_zero_iff]
      constructor
      · rintro (hsum | hlen0)
        · exact (zipSq_sum_eq_zero_iff a b hlen).mp hsum
        · exact absurd hlen0 hne
      · intro hab
        exact Or.inl ((zipSq_sum_eq_zero_iff a b hlen).mpr hab)

/-- Witness for C5 at ŷ = [1, 2], targets = [1, 3]. -/
theorem mse_nonneg_and_zero_iff_witness :
    ([(1 : ℚ), 2].length = [(1 : ℚ), 3].length) ∧
      (0 ≤ mse [(1 : ℚ), 2] [(1 : ℚ), 3] ∧
        (mse [(1 : ℚ), 2] [(1 : ℚ), 3] = 0 ↔ [(1 : ℚ), 2] = [(1 : ℚ), 3])) :=
  ⟨rfl, mse_nonneg_and_zero_iff [(1 : ℚ), 2] [(1 : ℚ), 3] rfl⟩

/-! ## Frobenius-norm lemmas for the shrinkage property -/

theorem frobInner_comm {T K : ℕ} (A B : Matrix (Fin T) (Fin K) ℚ) :
    frobInner A B = frobInner B A := by
  unfold frobInner
  apply Finset.sum_congr rfl
  intro i _
  apply Finset.sum_congr rfl
  intro j _
  ring

theorem frobInner_add_right {T K : ℕ} (A B C : Matrix (Fin T) (Fin K) ℚ) :
    frobInner A (B + C) = frobInner A B + frobInner A C := by
  unfold frobInner
  rw [← Finset.sum_add_distrib]
  apply Finset.sum_congr rfl
  intro i _
  rw [← Finset.sum_add_distrib]
  apply Finset.sum_congr rfl
  intro j _
  simp [Matrix.add_apply]
  ring

theorem frobInner_smul_right {T K : ℕ} (c : ℚ) (A B : Matrix (Fin T) (Fin K) ℚ) :
    frobInner A (c • B) = c * frobInner A B := by
  unfold frobInner
  rw [Finset.mul_sum]
  apply Finset.sum_congr rfl
  intro i _
  rw [Finset.mul_sum]
  apply Finset.sum_congr rfl
  intro j _
  simp [Matrix.smul_apply]
  ring

theorem frobInner_zero_right {T K : ℕ} (A : Matrix (Fin T) (Fin K) ℚ) :
    frobInner A 0 = 0 := by
  unfold frobInner
  simp

theorem frobNormSq_nonneg {T K : ℕ} (A : Matrix (Fin T) (Fin K) ℚ) :
    0 ≤ frobNormSq A := by
  unfold frobNormSq frobInner
  exact Finset.sum_nonneg fun i _ =>
    Finset.sum_nonneg fun j _ => mul_self_nonneg (A i j)

theorem frobNormSq_add {T K : ℕ} (A B : Matrix (Fin T) (Fin K) ℚ) :
    frobNormSq (A + B) =
      frobNormSq A + 2 * frobInner A B + frobNormSq B := by
  unfold frobNormSq
  rw [frobInner_add_right]
  rw [frobInner_comm (A + B) A, frobInner_comm (A + B) B]
  rw [frobInner_add_right, frobInner_add_right]
  rw [frobInner_comm B A]
  ring

theorem frobInner_eq_trace {T K : ℕ} (A B : Matrix (Fin T) (Fin K) ℚ) :
    frobInner A B = Matrix.trace (Aᵀ * B) := by
  unfold frobInner
  simp [Matrix.trace, Matrix.diag, Matrix.mul_apply, Matrix.transpose_apply]
  exact Finset.sum_comm

theorem frobInner_adjoint {T U K : ℕ} (X : Matrix (Fin T) (Fin U) ℚ)
    (D : Matrix (Fin U) (Fin K) ℚ) (C : Matrix (Fin T) (Fin K) ℚ) :
    frobInner (X * D) C = frobInner D (Xᵀ * C) := by
  rw [frobInner_eq_trace, frobInner_eq_trace, Matrix.transpose_mul,
    Matrix.mul_assoc]

theorem ridge_objective_minimized {T U K : ℕ} (lmb : ℚ)
    (X : Matrix (Fin T) (Fin U) ℚ) (Y : Matrix (Fin T) (Fin K) ℚ)
    (hl : 0 ≤ lmb) (W V : Matrix (Fin U) (Fin K) ℚ)
    (hW : (Xᵀ * X + lmb • (1 : Matrix (Fin U) (Fin U) ℚ)) * W = Xᵀ * Y) :
    ridgeObjective lmb X Y W ≤ ridgeObjective lmb X Y V := by
  set D := V - W with hD
  have hV : W + D = V := by rw [hD]; abel
  have hXV : X * V - Y = (X * W - Y) + X * D := by
    rw [← hV, Matrix.mul_add]; abel
  have hnorm1 : frobNormSq (X * V - Y) =
      frobNormSq (X * W - Y) + 2 * frobInner (X * W - Y) (X * D) +
        frobNormSq (X * D) := by
    rw [hXV, frobNormSq_add]
  have hnorm2 : frobNormSq V =
      frobNormSq W + 2 * frobInner W D + frobNormSq D := by
    conv_lhs => rw [← hV]
    rw [frobNormSq_add]
  have hcross : frobInner (X * W - Y) (X * D) + lmb * frobInner W D = 0 := by
    have e1 : frobInner (X * W - Y) (X * D) =
        frobInner D (Xᵀ * (X * W - Y)) := by
      rw [frobInner_comm, frobInner_adjoint]
    have e2 : lmb * frobInner W D = frobInner D (lmb • W) := by
      rw [frobInner_smul_right, frobInner_comm]
    have e3 : Xᵀ * (X * W - Y) + lmb • W =
        (Xᵀ * X + lmb • (1 : Matrix (Fin U) (Fin U) ℚ)) * W - Xᵀ * Y := by
      rw [Matrix.mul_sub, Matrix.add_mul, Matrix.smul_mul, Matrix.one_mul,
        ← Matrix.mul_assoc]
      abel
    rw [e1, e2, ← frobInner_add_right, e3, hW, sub_self, frobInner_zero_right]
  unfold ridgeObjective
  rw [hnorm1, hnorm2]
  nlinarith [frobNormSq_nonneg (X * D), frobNormSq_nonneg D,
    mul_nonneg hl (frobNormSq_nonneg D), hcross]

/-- C6: for fixed X, Y and regularization constants 0 < λ₁ ≤ λ₂, the
squared Frobenius norm (equivalently, the norm) of the ridge solution does
not increase: ‖solve(X,Y,λ₂)‖² ≤ ‖solve(X,Y,λ₁)‖². -/
theorem ridge_solve_shrinkage {T U K : ℕ} (X : Matrix (Fin T) (Fin U) ℚ)
    (Y : Matrix (Fin T) (Fin K) ℚ) {l1 l2 : ℚ} (h1 : 0 < l1) (h12 : l1 ≤ l2) :
    frobNormSq (ridge_solve l2 X Y) ≤ frobNormSq (ridge_solve l1 X Y) := by
  rcases eq_or_lt_of_le h12 with heq | hlt
  · rw [heq]
  · have h2 : 0 < l2 := lt_trans h1 hlt
    have n1 := ridge_solve_normal l1 X Y h1
    have n2 := ridge_solve_normal l2 X Y h2
    have hA := ridge_objective_minimized l1 X Y (le_of_lt h1)
      (ridge_solve l1 X Y) (ridge_solve l2 X Y) n1
    have hB := ridge_objective_minimized l2 X Y (le_of_lt h2)
      (ridge_solve l2 X Y) (ridge_solve l1 X Y) n2
    unfold ridgeObjective at hA hB
    by_contra hc
    push_neg at hc
    nlinarith [hA, hB, mul_pos (sub_pos.mpr hlt) (sub_pos.mpr hc)]

/-- Witness for C6 at X = [[2]], Y = [[3]], λ₁ = 1, λ₂ = 2. -/
theorem ridge_solve_shrinkage_witness :
    ((0 : ℚ) < 1 ∧ (1 : ℚ) ≤ 2) ∧
      frobNormSq (ridge_solve 2 !![(2 : ℚ)] !![(3 : ℚ)]) ≤
        frobNormSq (ridge_solve 1 !![(2 : ℚ)] !![(3 : ℚ)]) :=
  ⟨⟨by norm_num, by norm_num⟩,
    ridge_solve_shrinkage !![(2 : ℚ)] !![(3 : ℚ)] (by norm_num) (by norm_num)⟩

/-! ## Training-loop lemmas -/

theorem clip_by_value_mem {x lo hi : ℝ} (h : lo ≤ hi) :
    lo ≤ clip_by_value x lo hi ∧ clip_by_value x lo hi ≤ hi :=
  ⟨le_min (le_max_right x lo) h, min_le_right (max x lo) hi⟩

theorem clip_by_value_at_095 : clip_by_value (0.95 : ℝ) 0.05 0.95 = 0.95 := by
  unfold clip_by_value
  rw [max_eq_left (by norm_num : (0.05 : ℝ) ≤ 0.95), min_self]

theorem adam_lr_one_pos : 0 < adam_lr 1 := by
  unfold adam_lr learning_rate beta_1 beta_2
  have hs : (0 : ℝ) < Real.sqrt (1 - 0.999 ^ 1) := Real.sqrt_pos.mpr (by norm_num)
  have hd : (0 : ℝ) < 1 - 0.9 ^ 1 := by norm_num
  exact div_pos (mul_pos (by norm_num) hs) hd

theorem adam_alpha_overshoot : (0.95 : ℝ) < adam_theta 1 0.95 0 0 (-1) := by
  have hm : adam_m 0 (-1) = -0.1 := by unfold adam_m beta_1; norm_num
  have hv : adam_v 0 (-1) = 0.001 := by unfold adam_v beta_2; norm_num
  have hfrac : adam_m 0 (-1) / (Real.sqrt (adam_v 0 (-1)) + adam_epsilon) < 0 := by
    rw [hm, hv]
    apply div_neg_of_neg_of_pos (by norm_num)
    unfold adam_epsilon
    positivity
  have hstep := mul_neg_of_pos_of_neg adam_lr_one_pos hfrac
  unfold adam_theta
  linarith

theorem runLoop_length (step : OptState → OptState × Record) :
    ∀ (n : ℕ) (s : OptState), (runLoop step n s).2.length = n
  | 0, _ => rfl
  | n + 1, s => by
    simp only [runLoop, List.length_cons]
    rw [runLoop_length step n]

theorem runLoop_get (step : OptState → OptState × Record) :
    ∀ (n : ℕ) (s : OptState) (e : ℕ), e < n →
      (runLoop step n s).2[e]? = some (step (stateAfter step e s)).2
  | 0, _, e, he => absurd he (Nat.not_lt_zero e)
  | n + 1, s, 0, _ => by
    simp only [runLoop, stateAfter, List.getElem?_cons_zero]
  | n + 1, s, e + 1, he => by
    simp only [runLoop, stateAfter, List.getElem?_cons_succ]
    exact runLoop_get step n (step s).1 e (Nat.lt_of_succ_lt_succ he)

theorem runLoop_preserves_lmb (step : OptState → OptState × Record)
    (hstep : ∀ s, (step s).1.lmb = s.lmb) :
    ∀ (n : ℕ) (s : OptState), (runLoop step n s).1.lmb = s.lmb
  | 0, _ => rfl
  | n + 1, s => by
    simp only [runLoop]
    rw [runLoop_preserves_lmb step hstep n, hstep]

/-- C1 (amended): within every optimizer step, the values produced by the
projection — the values the Adam update is then applied on top of — lie in
their declared intervals; the final (post-`apply_gradients`) values of the step
are not re-clamped and may lie outside (see the counterexample). -/
theorem step_projected_values_in_range (s : OptState) :
    hpInRange (clampHyper s.hp) := by
  unfold hpInRange clampHyper
  refine ⟨⟨?_, ?_⟩, ⟨?_, ?_⟩, ⟨?_, ?_⟩, ⟨?_, ?_⟩⟩ <;>
    first
      | exact (clip_by_value_mem (by norm_num)).1
      | exact (clip_by_value_mem (by norm_num)).2

/-- Counterexample to C1 as stated: starting from in-range values with
`alpha` at its upper bound 0.95, zero Adam moments and gradient -1 on
`alpha`, the value of `alpha` after one full optimizer step (whose last
operation is `apply_gradients`, source line 157) exceeds 0.95, so the four
hyperparameters are not all inside their intervals after the step. -/
theorem step_can_leave_range :
    ¬ hpInRange ((stepModel cexGrads cexLoss cexState).1.hp) := by
  intro hIn
  have hub : (stepModel cexGrads cexLoss cexState).1.hp.alpha ≤ 0.95 :=
    hIn.2.1.2
  have hval : (stepModel cexGrads cexLoss cexState).1.hp.alpha =
      adam_theta 1 (clip_by_value 0.95 0.05 0.95) 0 0 (-1) := rfl
  rw [hval, clip_by_value_at_095] at hub
  exact absurd hub (not_le.mpr adam_alpha_overshoot)

/-- C2 (amended): within every optimizer step the projection (clamping) is
applied strictly *before* `apply_gradients`: the gradient is computed at
the hyperparameter values at the start of the step (pre-projection), and the
adaptive update is applied on top of the clamped values; the post-update
values are not clamped again. -/
theorem step_clamps_before_update (gradsOf : HP → ℝ → HP)
    (lossOf : HP → ℝ → ℝ) (s : OptState) :
    (stepModel gradsOf lossOf s).1.hp =
      adamHP (s.t + 1) (clampHyper s.hp) s.m s.v (gradsOf s.hp s.lmb) := rfl

/-- Counterexample to C2 as stated: a step that applied `apply_gradients`
first and the clamping strictly after it (`specOrderStep`) gives a
different result than the implemented step on a concrete state — the
implemented step leaves `alpha` above 0.95 while the spec-ordered step
would clamp it back to 0.95. -/
theorem step_order_differs_from_spec_order :
    (stepModel cexGrads cexLoss cexState).1.hp.alpha ≠
      (specOrderStep cexGrads cexLoss cexState).1.hp.alpha := by
  have hL : (stepModel cexGrads cexLoss cexState).1.hp.alpha =
      adam_theta 1 (clip_by_value 0.95 0.05 0.95) 0 0 (-1) := rfl
  have hR : (specOrderStep cexGrads cexLoss cexState).1.hp.alpha =
      clip_by_value (adam_theta 1 0.95 0 0 (-1)) 0.05 0.95 := rfl
  rw [hL, hR, clip_by_value_at_095]
  have hθ := adam_alpha_overshoot
  have hclamp : clip_by_value (adam_theta 1 0.95 0 0 (-1)) 0.05 0.95 = 0.95 := by
    unfold clip_by_value
    rw [max_eq_left (by linarith), min_eq_right (by linarith)]
  rw [hclamp]
  linarith

/-- C7: the training loop runs exactly `epochCount` optimizer steps with
no early stopping or branching: the recorded trajectory and each of its
five series (loss, alpha, decay, rho, sw) have length exactly
`epochCount`, entry `e` is the record produced by the step at epoch `e`
(the step applied to the state reached after `e` previous steps), and with
`epochCount = 0` the trajectory is empty, the state untouched, and no step
(hence no forward pass) is executed. -/
theorem training_loop_trajectory (gradsOf : HP → ℝ → HP)
    (lossOf : HP → ℝ → ℝ) (n : ℕ) (s : OptState) :
    (runLoop (stepModel gradsOf lossOf) n s).2.length = n ∧
      ((runLoop (stepModel gradsOf lossOf) n s).2.map Record.loss).length = n ∧
      ((runLoop (stepModel gradsOf lossOf) n s).2.map Record.alpha).length = n ∧
      ((runLoop (stepModel gradsOf lossOf) n s).2.map Record.decay).length = n ∧
      ((runLoop (stepModel gradsOf lossOf) n s).2.map Record.rho).length = n ∧
      ((runLoop (stepModel gradsOf lossOf) n s).2.map Record.sw).length = n ∧
      runLoop (stepModel gradsOf lossOf) 0 s = (s, []) ∧
      ∀ e, e < n →
        (runLoop (stepModel gradsOf lossOf) n s).2[e]? =
          some (stepModel gradsOf lossOf
            (stateAfter (stepModel gradsOf lossOf) e s)).2 := by
  refine ⟨runLoop_length _ n s, ?_, ?_, ?_, ?_, ?_, rfl,
    fun e he => runLoop_get _ n s e he⟩ <;>
    rw [List.length_map, runLoop_length]

/-- Witness for C7: one-epoch run, entry 0 is the record of the step at
the initial state. -/
theorem training_loop_trajectory_witness :
    (0 : ℕ) < 1 ∧
      (runLoop (stepModel cexGrads cexLoss) 1 cexState).2[0]? =
        some (stepModel cexGrads cexLoss
          (stateAfter (stepModel cexGrads cexLoss) 0 cexState)).2 :=
  ⟨by decide,
    (training_loop_trajectory cexGrads cexLoss 1 cexState).2.2.2.2.2.2.2 0
      (by decide)⟩

/-- C8: two runs of the training phase with identical initial
hyperparameters and optimizer state, identical epoch count, and an
identical forward pass/gradient oracle (which is determined by the
dataset and by the random seed of every stochastic component — the
randomly initialized reservoir weights) produce identical final states
and identical per-epoch metric trajectories. -/
theorem optimize_deterministic (g1 g2 : HP → ℝ → HP) (l1 l2 : HP → ℝ → ℝ)
    (n1 n2 : ℕ) (s1 s2 : OptState) (hg : g1 = g2) (hl : l1 = l2)
    (hn : n1 = n2) (hs : s1 = s2) :
    optimizeModel g1 l1 n1 s1 = optimizeModel g2 l2 n2 s2 := by
  rw [hg, hl, hn, hs]

/-- Witness for C8: two syntactically identical runs coincide. -/
theorem optimize_deterministic_witness :
    optimizeModel cexGrads cexLoss 1 cexState =
      optimizeModel cexGrads cexLoss 1 cexState :=
  optimize_deterministic cexGrads cexGrads cexLoss cexLoss 1 1 cexState
    cexState rfl rfl rfl rfl

/-- C9: the regularization constant λ (`lmb`, a non-trainable variable set
once at model construction, source line 79) is unchanged by every
optimizer step: each single step preserves it, and after any number of
epochs it equals its initial value — only the four hyperparameters and
the Adam moments are updated. -/
theorem lmb_not_trained (gradsOf : HP → ℝ → HP) (lossOf : HP → ℝ → ℝ)
    (n : ℕ) (s : OptState) :
    (runLoop (stepModel gradsOf lossOf) n s).1.lmb = s.lmb ∧
      ∀ s', (stepModel gradsOf lossOf s').1.lmb = s'.lmb :=
  ⟨runLoop_preserves_lmb _ (fun _ => rfl) n s, fun _ => rfl⟩

/-! ## Dataset lemmas -/

theorem mult_sines_length (sinf : ℚ → ℚ) (stime : ℕ) :
    (mult_sines sinf stime).length = stime := by
  unfold mult_sines
  simp only [List.length_map, List.length_range]

/-- C10: the dataset is a 5-step delayed recall built from one generated
wave `mult_sines(stime+5)`: input = wave[5:], target = wave[:-5], both of
length `stime`, and for every `t` with `t + 5 < stime` the target at
position `t+5` equals the input at position `t` (both equal the wave at
position `t+5`). -/
theorem dataset_delayed_recall (sinf : ℚ → ℚ) (stime t : ℕ)
    (ht : t + 5 < stime) :
    (rnn_input sinf stime).length = stime ∧
      (rnn_target sinf stime).length = stime ∧
      (rnn_target sinf stime)[t + 5]? = (rnn_input sinf stime)[t]? ∧
      (rnn_input sinf stime)[t]? = (mult_sines sinf (stime + 5))[t + 5]? := by
  have hwave := mult_sines_length sinf (stime + 5)
  have hinp : (rnn_input sinf stime)[t]? =
      (mult_sines sinf (stime + 5))[t + 5]? := by
    unfold rnn_input
    rw [List.getElem?_drop]
    congr 1
    omega
  refine ⟨?_, ?_, ?_, hinp⟩
  · unfold rnn_input
    rw [List.length_drop, hwave]
    omega
  · unfold rnn_target
    rw [List.length_take, hwave]
    omega
  · unfold rnn_target
    rw [List.getElem?_take, if_pos ht, hinp]

/-- Witness for C10 at `sinf = id`, `stime = 7`, `t = 1`. -/
theorem dataset_delayed_recall_witness :
    1 + 5 < 7 ∧
      ((rnn_target id 7)[1 + 5]? = (rnn_input id 7)[1]? ∧
        (rnn_input id 7).length = 7) :=
  ⟨by decide,
    (dataset_delayed_recall id 7 1 (by decide)).2.2.1,
    (dataset_delayed_recall id 7 1 (by decide)).1⟩
